/-
Shallow embedding of `unidler.py` from ministryofjustice/analytics-platform-unidler,
with proofs about the properties of its session state machine, route resolution,
replica restoration and HTTP front controller.

Python dictionaries (labels, annotations, the session registry) are modelled as
association lists with unique keys, updated in place (`setKV` keeps the position of
an existing key, as CPython dicts do).  Kubernetes API calls are modelled as pure
lookups/updates on an explicit `Cluster` value, and every call is also recorded in
an `ApiEvent` trace so that theorems can speak about which mutations are issued and
in which order.  Exceptions are modelled by an explicit error type `UErr`.
-/
import Mathlib

/-! ## Association-list model of Python dicts -/

/-- `d.get(k)` on a Python dict modelled as an association list. -/
def getKV {α : Type} : List (String × α) → String → Option α
  | [], _ => none
  | (k', v) :: rest, k => if k' = k then some v else getKV rest k

/-- `d[k] = v` on a Python dict: replace in place, or append a new key. -/
def setKV {α : Type} : List (String × α) → String → α → List (String × α)
  | [], k, v => [(k, v)]
  | (k', v') :: rest, k, v =>
    if k' = k then (k, v) :: rest else (k', v') :: setKV rest k v

/-- `del d[k]` on a Python dict (keys are unique, so removing every pair
with key `k` agrees with removing the one entry). -/
def delKV {α : Type} : List (String × α) → String → List (String × α)
  | [], _ => []
  | (k', v') :: rest, k =>
    if k' = k then delKV rest k else (k', v') :: delKV rest k

/-! ## Reserved identities (module constants, unidler.py lines 21-26) -/

/-- `IDLED = 'mojanalytics.xyz/idled'` -/
def IDLED : String := "mojanalytics.xyz/idled"

/-- `IDLED_AT = 'mojanalytics.xyz/idled-at'` -/
def IDLED_AT : String := "mojanalytics.xyz/idled-at"

/-- `INGRESS_CLASS = 'kubernetes.io/ingress.class'` -/
def INGRESS_CLASS : String := "kubernetes.io/ingress.class"

/-- `INGRESS_CLASS_NAME = os.environ.get('INGRESS_CLASS_NAME', 'istio')`:
the environment default. -/
def INGRESS_CLASS_NAME : String := "istio"

/-- `UNIDLER = 'unidler'` -/
def UNIDLER : String := "unidler"

/-- `UNIDLER_NAMESPACE = 'default'` -/
def UNIDLER_NAMESPACE : String := "default"

/-! ## Data model: ingresses (Routes), deployments (Workloads), cluster -/

/-- One host rule of an ingress (`V1beta1IngressRule`): the `host` field is all
the source reads; `backend` stands for the rest of the rule's payload so that
"rule unchanged" is a meaningful statement. -/
structure Rule where
  host : String
  backend : String
deriving DecidableEq

/-- An ingress (Route): `metadata.name`, `metadata.namespace`, `spec.rules`,
`metadata.annotations` (as the `anns` field). -/
structure Ingress where
  name : String
  ns : String
  rules : List Rule
  anns : List (String × String)
deriving DecidableEq

/-- A deployment (Workload): `metadata.name/namespace`, `metadata.labels`,
`metadata.annotations` (as `anns`), `spec.replicas` (as `specReplicas`) and
`status.available_replicas` (as `availableReplicas`; `none` models Python `None`). -/
structure Deployment where
  name : String
  ns : String
  labels : List (String × String)
  anns : List (String × String)
  specReplicas : Option Int
  availableReplicas : Option Int
deriving DecidableEq

/-- The cluster state the kubernetes API reads and writes. -/
structure Cluster where
  ingresses : List Ingress
  deployments : List Deployment
deriving DecidableEq

/-- Trace of kubernetes API calls, in issue order. -/
inductive ApiEvent
  /-- `ExtensionsV1beta1Api().list_ingress_for_all_namespaces()` -/
  | listIngresses
  /-- `AppsV1beta1Api().read_namespaced_deployment(name, ns)` -/
  | readDeployment (name ns : String)
  /-- `AppsV1beta1Api().replace_namespaced_deployment(name, ns, d)` — a Workload write. -/
  | replaceDeployment (name ns : String) (d : Deployment)
  /-- `ExtensionsV1beta1Api().patch_namespaced_ingress(name, ns, i)` — a Route write. -/
  | patchIngress (name ns : String) (i : Ingress)
  /-- `ExtensionsV1beta1Api().read_namespaced_ingress(UNIDLER, UNIDLER_NAMESPACE)` -/
  | readUnidlerIngress
deriving DecidableEq

/-- The exceptions the source raises or propagates. -/
inductive UErr
  /-- `IngressNotFound(hostname)` -/
  | ingressNotFound (hostname : String)
  /-- `DeploymentNotFound(name, namespace)` -/
  | deploymentNotFound (name ns : String)
  /-- `ValueError` from unpacking `annotation.split(',')` or from `int(...)`. -/
  | valueError
  /-- an uncaught `ApiException` from a direct read (`unidler_ingress`). -/
  | apiError
  /-- `AttributeError` from dereferencing a `None` handle. -/
  | noneDeref
  /-- `IndexError` from `ingress.spec.rules[0]` on a Route with no rules
  (uncaught: `next(gen, None)` absorbs only `StopIteration`). -/
  | indexError
deriving DecidableEq

/-! ## Python string helpers used by `restore_replicas`

`str.split(',')` and `int(...)` are modelled on the character lists underlying
Lean strings.  `pyInt?` models `int()` on the optionally-signed decimal strings
that occur here (Python additionally tolerates surrounding whitespace and
underscores, which never occur in the annotation format). -/

/-- `s.split(',')` on the underlying character list: splits at every comma. -/
def splitCommaL : List Char → List (List Char)
  | [] => [[]]
  | c :: cs =>
    if c = ',' then [] :: splitCommaL cs
    else
      match splitCommaL cs with
      | [] => [[c]]
      | f :: rest => (c :: f) :: rest

/-- `s.split(',')` for Lean strings. -/
def pySplitComma (s : String) : List String :=
  (splitCommaL s.data).map String.mk

/-- Is `c` a decimal digit (`'0'` to `'9'`)? -/
def isDig (c : Char) : Bool :=
  48 ≤ c.toNat && c.toNat ≤ 57

/-- One step of decimal accumulation. -/
def digStep (acc : Nat) (c : Char) : Nat :=
  10 * acc + (c.toNat - 48)

/-- Parse a non-empty all-digit character list as a natural number. -/
def parseDigits (cs : List Char) : Option Nat :=
  if cs = [] then none
  else if cs.all isDig then some (cs.foldl digStep 0)
  else none

/-- `int(s)` on an optionally-minus-signed decimal string. -/
def pyInt? (s : String) : Option Int :=
  if s.data.head? = some '-' then (parseDigits s.data.tail).map (fun n => -(n : Int))
  else (parseDigits s.data).map (fun n => (n : Int))

/-- The decimal digit character for `d < 10`. -/
def digitChar (d : Nat) : Char := Char.ofNat (48 + d)

/-- The decimal digit string of a natural number, most significant first. -/
def natChars (n : Nat) : List Char :=
  if _h : n < 10 then [digitChar n]
  else natChars (n / 10) ++ [digitChar (n % 10)]
decreasing_by exact Nat.div_lt_self (by omega) (by omega)

/-- Modelled from the spec: the idling-side controller (not part of this
repository) writes the saved-state annotation in the format
`"<timestamp>,<replicas>"` with the replica count in decimal. -/
def formatIdledAt (ts : String) (n : Nat) : String :=
  String.mk (ts.data ++ ',' :: natChars n)

/-! ## Module-level functions of unidler.py -/

/-- `ingress_for_host(hostname)` (lines 170-185): scans the ingresses in order.
An ingress whose `metadata.name` equals `UNIDLER` is skipped before its rules
are touched (`and` short-circuits).  On any other ingress the source evaluates
`ingress.spec.rules[0].host`: with no rules this raises `IndexError`
(`.error .indexError` — uncaught, so it surfaces as a 500, never as a 404);
with a first rule whose host equals `hostname` the ingress is returned;
otherwise the scan continues.  Exhaustion gives `next(..., None) = None` and
the function raises `IngressNotFound(hostname)`. -/
def ingress_for_host (hostname : String) : List Ingress → Except UErr Ingress
  | [] => .error (.ingressNotFound hostname)
  | i :: rest =>
    if i.name = UNIDLER then ingress_for_host hostname rest
    else
      match i.rules.head? with
      | none => .error .indexError
      | some r =>
        if r.host = hostname then .ok i else ingress_for_host hostname rest

/-- `deployment_for_ingress(ingress)` (lines 158-167): read the deployment with
the ingress's name and namespace; `none` models `DeploymentNotFound`. -/
def deployment_for_ingress (c : Cluster) (ing : Ingress) : Option Deployment :=
  c.deployments.find? (fun d => d.name = ing.name && d.ns = ing.ns)

/-- `unidler_ingress()` (lines 234-236): read the ingress `('unidler', 'default')`. -/
def unidler_ingress (c : Cluster) : Option Ingress :=
  c.ingresses.find? (fun i => i.name = UNIDLER && i.ns = UNIDLER_NAMESPACE)

/-- `is_idle(hostname)` (lines 188-191): resolve the ingress then its deployment
and test for the `IDLED` label, recording the API calls issued. -/
def is_idle (hostname : String) (c : Cluster) : List ApiEvent × Except UErr Bool :=
  match ingress_for_host hostname c.ingresses with
  | .error e => ([.listIngresses], .error e)
  | .ok ing =>
    match deployment_for_ingress c ing with
    | none => ([.listIngresses, .readDeployment ing.name ing.ns],
               .error (.deploymentNotFound ing.name ing.ns))
    | some d => ([.listIngresses, .readDeployment ing.name ing.ns],
                 .ok (getKV d.labels IDLED).isSome)

/-- `restore_replicas(deployment)` (lines 194-204): if the `IDLED_AT` annotation
is present, unpack `"<timestamp>,<replicas>"` and set `spec.replicas` to
`int(replicas)`; if it is absent, log and leave the deployment unchanged.
A malformed annotation raises `ValueError`. -/
def restore_replicas (d : Deployment) : Except UErr Deployment :=
  match getKV d.anns IDLED_AT with
  | none => .ok d
  | some ann =>
    match pySplitComma ann with
    | [_, reps] =>
      match pyInt? reps with
      | some k => .ok { d with specReplicas := some k }
      | none => .error .valueError
    | _ => .error .valueError

/-- `unmark_idled(deployment)` (lines 206-211): delete the `IDLED` label and the
`IDLED_AT` annotation. -/
def unmark_idled (d : Deployment) : Deployment :=
  { d with labels := delKV d.labels IDLED, anns := delKV d.anns IDLED_AT }

/-- `write_deployment_changes(deployment)` (lines 214-221): replace the cluster's
deployment with the same name and namespace. -/
def write_deployment_changes (c : Cluster) (d : Deployment) : Cluster :=
  { c with deployments :=
      c.deployments.map (fun d0 => if d0.name = d.name ∧ d0.ns = d.ns then d else d0) }

/-- `write_ingress_changes(ingress)` (lines 224-231): patch the cluster's ingress
with the same name and namespace. -/
def write_ingress_changes (c : Cluster) (i : Ingress) : Cluster :=
  { c with ingresses :=
      c.ingresses.map (fun i0 => if i0.name = i.name ∧ i0.ns = i.ns then i else i0) }

/-- `remove_host_rule(hostname, ingress)` (lines 239-250): keep exactly the rules
whose `host` differs from `hostname`. -/
def remove_host_rule (hostname : String) (i : Ingress) : Ingress :=
  { i with rules := i.rules.filter (fun rule => rule.host ≠ hostname) }

/-- The module-level `enable_ingress(ingress)` (lines 253-254): set the
`INGRESS_CLASS` annotation to `INGRESS_CLASS_NAME`. -/
def enable_ingress (i : Ingress) : Ingress :=
  { i with anns := setKV i.anns INGRESS_CLASS INGRESS_CLASS_NAME }

/-! ## The Unidling session state machine (class `Unidling`, lines 102-155)

The Python methods mutate `self` and the cluster and issue API calls; they are
modelled as functions from a session and a cluster to a result record carrying
the updated session, the updated cluster, the trace of API calls issued, and the
exception raised (if any).  On an exception path the session keeps the mutations
made before the raise, exactly as the aliased Python object would. -/

/-- The mutable state of an `Unidling` instance (`__init__`, lines 104-111).
The `log` attribute is not modelled. -/
structure Unidling where
  hostname : String
  ingress : Option Ingress
  deployment : Option Deployment
  started : Bool
  replicas : Int
  enabled : Bool
deriving DecidableEq

/-- `Unidling(hostname)`: the constructor's field values. -/
def Unidling.init (hostname : String) : Unidling :=
  { hostname := hostname, ingress := none, deployment := none,
    started := false, replicas := 0, enabled := false }

/-- Result of `Unidling.start`. -/
structure StartRes where
  events : List ApiEvent
  sess : Unidling
  cluster : Cluster
  err : Option UErr
deriving DecidableEq

/-- `Unidling.start` (lines 113-127): if not yet started, set `started`, resolve
the ingress and its deployment, restore replicas, clear the idled markers and
persist the deployment; a repeat call only logs `BAD STATE 1`. -/
def Unidling.start (s : Unidling) (c : Cluster) : StartRes :=
  if s.started then
    { events := [], sess := s, cluster := c, err := none }
  else
    let s1 := { s with started := true }
    match ingress_for_host s.hostname c.ingresses with
    | .error e =>
      { events := [.listIngresses], sess := s1, cluster := c, err := some e }
    | .ok ing =>
      let s2 := { s1 with ingress := some ing }
      match deployment_for_ingress c ing with
      | none =>
        { events := [.listIngresses, .readDeployment ing.name ing.ns], sess := s2,
          cluster := c, err := some (.deploymentNotFound ing.name ing.ns) }
      | some d =>
        let s3 := { s2 with deployment := some d }
        match restore_replicas d with
        | .error e =>
          { events := [.listIngresses, .readDeployment ing.name ing.ns], sess := s3,
            cluster := c, err := some e }
        | .ok d1 =>
          let d2 := unmark_idled d1
          { events := [.listIngresses, .readDeployment ing.name ing.ns,
                       .replaceDeployment d2.name d2.ns d2],
            sess := { s3 with deployment := some d2 },
            cluster := write_deployment_changes c d2,
            err := none }

/-- Result of `Unidling.is_done` (the cluster is not mutated). -/
structure DoneRes where
  events : List ApiEvent
  sess : Unidling
  done : Bool
  err : Option UErr
deriving DecidableEq

/-- `Unidling.is_done` (lines 129-140): if started, re-fetch the deployment for
the cached ingress and return whether the `IDLED` label is gone and
`int(status.available_replicas or 0) >= 1`; if not started, log `BAD STATE 2`
and return `False`. -/
def Unidling.is_done (s : Unidling) (c : Cluster) : DoneRes :=
  if s.started then
    match s.ingress with
    | none => { events := [], sess := s, done := false, err := some .noneDeref }
    | some ing =>
      match deployment_for_ingress c ing with
      | none =>
        { events := [.readDeployment ing.name ing.ns], sess := s, done := false,
          err := some (.deploymentNotFound ing.name ing.ns) }
      | some d =>
        { events := [.readDeployment ing.name ing.ns],
          sess := { s with deployment := some d },
          done := !(getKV d.labels IDLED).isSome && d.availableReplicas.getD 0 ≥ 1,
          err := none }
  else
    { events := [], sess := s, done := false, err := none }

/-- Alias for the module-level `enable_ingress`, usable inside the method of the
same name (Python resolves the call at line 152 to the module-level function). -/
def enableIngressAnn (i : Ingress) : Ingress := enable_ingress i

/-- Result of `Unidling.enable_ingress`. -/
structure EnableRes where
  events : List ApiEvent
  sess : Unidling
  cluster : Cluster
  err : Option UErr
deriving DecidableEq

/-- `Unidling.enable_ingress` (lines 142-155): if not yet enabled, set `enabled`,
fetch the unidler (holding) ingress, remove this hostname's rules from it and
patch it; then re-resolve the ingress for the hostname into a LOCAL variable
(line 151, whose value is never used again), and flip the class annotation on
the CACHED `self.ingress` handle and patch that; a repeat call only logs
`BAD STATE 3`. -/
def Unidling.enable_ingress (s : Unidling) (c : Cluster) : EnableRes :=
  if s.enabled then
    { events := [], sess := s, cluster := c, err := none }
  else
    let s1 := { s with enabled := true }
    match unidler_ingress c with
    | none =>
      { events := [.readUnidlerIngress], sess := s1, cluster := c, err := some .apiError }
    | some u =>
      let u1 := remove_host_rule s.hostname u
      let c1 := write_ingress_changes c u1
      let ev1 := [.readUnidlerIngress, .patchIngress u1.name u1.ns u1, .listIngresses]
      match ingress_for_host s.hostname c1.ingresses with
      | .error e =>
        { events := ev1, sess := s1, cluster := c1, err := some e }
      | .ok _fresh =>
        match s1.ingress with
        | none => { events := ev1, sess := s1, cluster := c1, err := some .noneDeref }
        | some cached =>
          let t := enableIngressAnn cached
          { events := ev1 ++ [.patchIngress t.name t.ns t],
            sess := { s1 with ingress := some t },
            cluster := write_ingress_changes c1 t,
            err := none }

/-! ## The front controller (`RequestHandler`, lines 48-91) -/

/-- The registry `RequestHandler.unidling`, a dict from hostname to session. -/
def Registry : Type := List (String × Unidling)

instance : DecidableEq Registry := by
  unfold Registry
  infer_instance

/-- The HTTP response issued by `do_GET`. -/
inductive Response
  /-- `respond(HTTPStatus.NO_CONTENT, '')` -/
  | noContent
  /-- `respond(HTTPStatus.ACCEPTED, please_wait(hostname))` -/
  | accepted (hostname : String)
  /-- `send_error(HTTPStatus.NOT_FOUND, ...)` -/
  | notFound
  /-- `send_error(HTTPStatus.INTERNAL_SERVER_ERROR, ...)` -/
  | internalError
deriving DecidableEq

/-- Which error response a caught exception maps to (lines 78-82):
`DeploymentNotFound`/`IngressNotFound` give 404, anything else 500. -/
def errResponse : UErr → Response
  | .ingressNotFound _ => .notFound
  | .deploymentNotFound _ _ => .notFound
  | _ => .internalError

/-- Does `p` begin the list `s`?  (Structural model of `str.startswith`.) -/
def charsLead : List Char → List Char → Bool
  | [], _ => true
  | _ :: _, [] => false
  | p :: ps, c :: cs => p = c && charsLead ps cs

/-- `hostname.startswith(UNIDLER)` (line 53): Python string prefix test. -/
def pyStartsWith (s pre : String) : Bool := charsLead pre.data s.data

/-- `self.headers.get('Host', UNIDLER)` (line 52): the hostname the handler
acts on, taken from the literal `Host` header only. -/
def resolvedHostname (headers : List (String × String)) : String :=
  (getKV headers "Host").getD UNIDLER

/-- Modelled from the spec: the controller is specified to read the
originally-intended hostname from a forwarded-host style header
(`X-Forwarded-Host`, as the repository's own tests use), falling back to the
literal `Host` header only when that header is absent.  This definition follows
the spec's words; the source's actual extraction is `resolvedHostname`. -/
def specResolvedHostname (headers : List (String × String)) : String :=
  ((getKV headers "X-Forwarded-Host").orElse (fun _ => getKV headers "Host")).getD UNIDLER

/-- Result of one `do_GET` request. -/
structure GetRes where
  response : Response
  registry : Registry
  cluster : Cluster
  events : List ApiEvent
deriving DecidableEq

/-- `RequestHandler.do_GET` (lines 51-85), single-threaded semantics: resolve the
hostname; if it starts with `'unidler'`, answer 204 with no further work;
otherwise advance the hostname's session one step (is_done / enable_ingress /
start), writing every session mutation back into the registry (the Python dict
holds the same object the methods mutate), and map the outcome to a response. -/
def RequestHandler.do_GET (headers : List (String × String)) (reg : Registry)
    (c : Cluster) : GetRes :=
  let hostname := resolvedHostname headers
  if pyStartsWith hostname UNIDLER then
    { response := .noContent, registry := reg, cluster := c, events := [] }
  else
    match getKV reg hostname with
    | some sess =>
      -- `if hostname in self.unidling:` — progress an existing session
      let r1 := sess.is_done c
      let reg1 : Registry := setKV reg hostname r1.sess
      match r1.err with
      | some e =>
        { response := errResponse e, registry := reg1, cluster := c, events := r1.events }
      | none =>
        if r1.done then
          let r2 := r1.sess.enable_ingress c
          match r2.err with
          | some e =>
            { response := errResponse e, registry := setKV reg hostname r2.sess,
              cluster := r2.cluster, events := r1.events ++ r2.events }
          | none =>
            -- `del self.unidling[hostname]`
            { response := .accepted hostname, registry := delKV reg hostname,
              cluster := r2.cluster, events := r1.events ++ r2.events }
        else
          { response := .accepted hostname, registry := reg1, cluster := c,
            events := r1.events }
    | none =>
      -- `elif is_idle(hostname):` — maybe create and start a session
      match is_idle hostname c with
      | (ev, .error e) =>
        { response := errResponse e, registry := reg, cluster := c, events := ev }
      | (ev, .ok true) =>
        let r := (Unidling.init hostname).start c
        match r.err with
        | some e =>
          { response := errResponse e, registry := setKV reg hostname r.sess,
            cluster := r.cluster, events := ev ++ r.events }
        | none =>
          { response := .accepted hostname, registry := setKV reg hostname r.sess,
            cluster := r.cluster, events := ev ++ r.events }
      | (ev, .ok false) =>
        -- `log.error('BAD STATE 4')`, then the `else:` clause still responds 202
        { response := .accepted hostname, registry := reg, cluster := c, events := ev }

/-! ## Interleaving model of the registry's get-or-create (for the concurrency claim)

`UnidlerServer` mixes in `ThreadingMixIn` (line 44), so `do_GET` runs on one
thread per request while `RequestHandler.unidling` (line 49) is a class
attribute shared by all of them.  For one fixed hostname, the registry fragment
of `do_GET` is the two-step program

  step `check`  — evaluate `hostname in self.unidling` (line 62); if present the
                  thread takes the in-progress branch, otherwise it proceeds to
                  construct (the blocking `is_idle` network round-trips of
                  line 70 happen between the check and the insert);
  step `insert` — execute `self.unidling[hostname] = Unidling(hostname, log)`
                  (line 72): construct a session object and insert it.

Each step is atomic (a single dict operation), but nothing in the source makes
the check-insert pair atomic.  `regStep` runs one step of one thread;
`regRun` runs a schedule (a list of thread choices, `true` = thread A,
`false` = thread B) for two concurrent requests carrying the same hostname. -/

/-- Program counter of one thread in the registry fragment of `do_GET`. -/
inductive RegPC
  /-- about to evaluate `hostname in self.unidling` (line 62) -/
  | check
  /-- saw the hostname absent; about to run line 72 (construct and insert) -/
  | insert
  /-- past the registry fragment -/
  | finished
deriving DecidableEq

/-- Shared registry state for one fixed hostname, plus both threads' counters.
`constructed` counts how many `Unidling` objects have been constructed for the
hostname; `present` is whether the hostname is a key of `RequestHandler.unidling`. -/
structure RegState where
  present : Bool
  constructed : Nat
  pcA : RegPC
  pcB : RegPC
deriving DecidableEq

/-- One atomic step of one thread's registry fragment: the membership test of
line 62, or the construct-and-insert of line 72. -/
def regStepPC (pc : RegPC) (present : Bool) (constructed : Nat) :
    RegPC × Bool × Nat :=
  match pc with
  | .check => if present then (.finished, present, constructed)
              else (.insert, present, constructed)
  | .insert => (.finished, true, constructed + 1)
  | .finished => (.finished, present, constructed)

/-- Run one step of thread A (`true`) or thread B (`false`). -/
def regStep (s : RegState) (thread : Bool) : RegState :=
  if thread then
    let (pc, p, n) := regStepPC s.pcA s.present s.constructed
    { s with pcA := pc, present := p, constructed := n }
  else
    let (pc, p, n) := regStepPC s.pcB s.present s.constructed
    { s with pcB := pc, present := p, constructed := n }

/-- Run a schedule of thread choices. -/
def regRun (sched : List Bool) (s : RegState) : RegState :=
  sched.foldl regStep s

/-- Both requests arrive while the hostname has no session yet. -/
def regInit : RegState :=
  { present := false, constructed := 0, pcA := .check, pcB := .check }

/-! ## Helper lemmas: association lists -/

theorem getKV_setKV_self {α : Type} (l : List (String × α)) (k : String) (v : α) :
    getKV (setKV l k v) k = some v := by
  induction l with
  | nil => simp [getKV, setKV]
  | cons p rest ih =>
    obtain ⟨k', v'⟩ := p
    by_cases h : k' = k <;> simp [getKV, setKV, h, ih]

theorem getKV_setKV_other {α : Type} (l : List (String × α)) (k k' : String) (v : α)
    (h : k' ≠ k) : getKV (setKV l k v) k' = getKV l k' := by
  induction l with
  | nil => simp [getKV, setKV, Ne.symm h]
  | cons p rest ih =>
    obtain ⟨k0, v0⟩ := p
    by_cases h0 : k0 = k
    · subst h0
      simp [getKV, setKV, Ne.symm h]
    · simp [getKV, setKV, h0, ih]

theorem getKV_delKV_self {α : Type} (l : List (String × α)) (k : String) :
    getKV (delKV l k) k = none := by
  induction l with
  | nil => simp [getKV, delKV]
  | cons p rest ih =>
    obtain ⟨k', v'⟩ := p
    by_cases h : k' = k <;> simp [getKV, delKV, h, ih]

theorem getKV_delKV_other {α : Type} (l : List (String × α)) (k k' : String)
    (h : k' ≠ k) : getKV (delKV l k) k' = getKV l k' := by
  induction l with
  | nil => simp [delKV]
  | cons p rest ih =>
    obtain ⟨k0, v0⟩ := p
    by_cases h0 : k0 = k
    · subst h0
      simp [getKV, delKV, Ne.symm h, ih]
    · simp [getKV, delKV, h0, ih]

/-! ## Helper lemmas: comma splitting and decimal digits -/

theorem splitCommaL_ne_nil (cs : List Char) : splitCommaL cs ≠ [] := by
  induction cs with
  | nil => simp [splitCommaL]
  | cons c rest ih =>
    by_cases h : c = ','
    · simp [splitCommaL, h]
    · simp only [splitCommaL, if_neg h]
      match hm : splitCommaL rest with
      | [] => simp
      | f :: r => simp

theorem splitCommaL_no_comma (cs : List Char) (h : ',' ∉ cs) :
    splitCommaL cs = [cs] := by
  induction cs with
  | nil => simp [splitCommaL]
  | cons c rest ih =>
    have hc : c ≠ ',' := fun hc => h (hc ▸ List.mem_cons_self c rest)
    have hr : ',' ∉ rest := fun hr => h (List.mem_cons_of_mem c hr)
    simp only [splitCommaL, if_neg hc, ih hr]

theorem splitCommaL_append (xs ys : List Char) (h : ',' ∉ xs) :
    splitCommaL (xs ++ ',' :: ys) = xs :: splitCommaL ys := by
  induction xs with
  | nil => simp [splitCommaL]
  | cons c rest ih =>
    have hc : c ≠ ',' := fun hc => h (hc ▸ List.mem_cons_self c rest)
    have hr : ',' ∉ rest := fun hr => h (List.mem_cons_of_mem c hr)
    simp only [List.cons_append, splitCommaL, List.append_eq, if_neg hc, ih hr]

theorem digitChar_toNat (d : Nat) (h : d < 10) : (digitChar d).toNat = 48 + d := by
  interval_cases d <;> decide

theorem isDig_digitChar (d : Nat) (h : d < 10) : isDig (digitChar d) = true := by
  interval_cases d <;> decide

/-- `natChars` produces digits only, folds back to its input, and is non-empty. -/
theorem natChars_spec (n : Nat) :
    (natChars n).all isDig = true ∧ (natChars n).foldl digStep 0 = n ∧ natChars n ≠ [] := by
  induction n using Nat.strong_induction_on with
  | _ n ih =>
    by_cases h : n < 10
    · rw [natChars]
      simp only [dif_pos h]
      refine ⟨by simp [isDig_digitChar n h], ?_, by simp⟩
      simp [digStep, digitChar_toNat n h]
    · rw [natChars]
      simp only [dif_neg h]
      obtain ⟨ihAll, ihFold, _⟩ := ih (n / 10) (Nat.div_lt_self (by omega) (by omega))
      have hmod : n % 10 < 10 := Nat.mod_lt n (by omega)
      refine ⟨?_, ?_, by simp⟩
      · simp [List.all_append, ihAll, isDig_digitChar _ hmod]
      · rw [List.foldl_append, ihFold]
        simp [digStep, digitChar_toNat _ hmod, Nat.div_add_mod]

theorem comma_not_mem_natChars (n : Nat) : ',' ∉ natChars n := by
  intro hmem
  have hall := (natChars_spec n).1
  have := List.all_eq_true.mp hall ',' hmem
  simp [isDig] at this

theorem parseDigits_natChars (n : Nat) : parseDigits (natChars n) = some n := by
  obtain ⟨hall, hfold, hne⟩ := natChars_spec n
  simp [parseDigits, hne, hall, hfold]

theorem pyInt?_natChars (n : Nat) : pyInt? (String.mk (natChars n)) = some n := by
  have hne : natChars n ≠ [] := (natChars_spec n).2.2
  have hhead : (natChars n).head? ≠ some '-' := by
    match hm : natChars n with
    | [] => simp
    | c :: rest =>
      have hall := (natChars_spec n).1
      rw [hm] at hall
      have hc := List.all_eq_true.mp hall c (List.mem_cons_self c rest)
      intro hcontra
      simp only [List.head?] at hcontra
      have : c = '-' := by simpa using hcontra
      subst this
      simp [isDig] at hc
  simp only [pyInt?]
  rw [if_neg (by simpa using hhead)]
  simp [parseDigits_natChars n]

/-! ## Concrete fixtures used by witness theorems -/

/-- A hostname that does not begin with `'unidler'`. -/
def hostW : String := "myapp.example.com"

/-- The Route of `hostW`'s workload (first rule matches `hostW`). -/
def ingW : Ingress := ⟨"myapp", "apps", [⟨hostW, "myapp-svc"⟩], [(INGRESS_CLASS, "disabled")]⟩

/-- The Holding Route, with rules for `hostW` and one other idled host. -/
def uingW : Ingress :=
  ⟨UNIDLER, UNIDLER_NAMESPACE,
   [⟨hostW, "unidler-svc"⟩, ⟨"other.example.com", "unidler-svc"⟩], []⟩

/-- `hostW`'s workload while idled: marker label set, saved-state annotation set. -/
def depIdledW : Deployment :=
  ⟨"myapp", "apps", [(IDLED, "true")], [(IDLED_AT, "2019-01-01T00:00:00,2")],
   some 0, some 0⟩

/-- `hostW`'s workload while idled but missing the saved-state annotation. -/
def depNoAnnW : Deployment :=
  ⟨"myapp", "apps", [(IDLED, "true")], [], some 0, some 0⟩

/-- `hostW`'s workload after restoration: marker gone, one replica available. -/
def depReadyW : Deployment := ⟨"myapp", "apps", [], [], some 2, some 1⟩

/-- Cluster with `hostW` idled. -/
def clusterIdledW : Cluster := ⟨[uingW, ingW], [depIdledW]⟩

/-- Cluster with `hostW` idled and no saved-state annotation. -/
def clusterNoAnnW : Cluster := ⟨[uingW, ingW], [depNoAnnW]⟩

/-- Cluster with `hostW` restored and available. -/
def clusterReadyW : Cluster := ⟨[uingW, ingW], [depReadyW]⟩

/-- A session for `hostW` that has completed `start()` (cached ingress handle). -/
def sessStartedW : Unidling :=
  { Unidling.init hostW with started := true, ingress := some ingW }

/-! ## C2 — `is_done` characterization -/

/-- **C2**: for every started session and every Workload state returned by the
refresh, `is_done()` returns false whenever the Idled marker label is present
(regardless of `availableReplicas`), returns false whenever
`availableReplicas < 1` (regardless of the label), and returns true exactly when
the label is absent and `availableReplicas >= 1`. -/
theorem is_done_iff_unidled_and_available
    (s : Unidling) (c : Cluster) (ing : Ingress) (d : Deployment)
    (hs : s.started = true) (hing : s.ingress = some ing)
    (hd : deployment_for_ingress c ing = some d) :
    ((getKV d.labels IDLED).isSome = true → (s.is_done c).done = false) ∧
    (d.availableReplicas.getD 0 < 1 → (s.is_done c).done = false) ∧
    ((s.is_done c).done = true ↔
      getKV d.labels IDLED = none ∧ d.availableReplicas.getD 0 ≥ 1) := by
  have hdone : (s.is_done c).done =
      (!(getKV d.labels IDLED).isSome && decide (d.availableReplicas.getD 0 ≥ 1)) := by
    unfold Unidling.is_done
    rw [hs, hing]
    simp [hd]
  refine ⟨?_, ?_, ?_⟩
  · intro hlab
    simp [hdone, hlab]
  · intro hrep
    have : ¬ (d.availableReplicas.getD 0 ≥ 1) := by omega
    simp [hdone, this]
  · rw [hdone]
    constructor
    · intro hb
      have h1 := (Bool.and_eq_true _ _).mp hb
      cases hlab : getKV d.labels IDLED with
      | some v =>
        rw [hlab] at h1
        simp at h1
      | none => exact ⟨rfl, of_decide_eq_true h1.2⟩
    · rintro ⟨hlab, hrep⟩
      simp [hlab, hrep]

/-- Witness for C2: concrete started session, restored and available workload. -/
theorem is_done_iff_unidled_and_available_witness :
    ((getKV depReadyW.labels IDLED).isSome = true → (sessStartedW.is_done clusterReadyW).done = false) ∧
    (depReadyW.availableReplicas.getD 0 < 1 → (sessStartedW.is_done clusterReadyW).done = false) ∧
    ((sessStartedW.is_done clusterReadyW).done = true ↔
      getKV depReadyW.labels IDLED = none ∧ depReadyW.availableReplicas.getD 0 ≥ 1) :=
  is_done_iff_unidled_and_available sessStartedW clusterReadyW ingW depReadyW
    rfl rfl (by decide)

/-! ## C3 — `start()` is idempotent and writes once -/

/-- Does an API event mutate a Workload? -/
def isWorkloadWrite : ApiEvent → Bool
  | .replaceDeployment _ _ _ => true
  | _ => false

/-- On the success path, `start` resolves the ingress, its deployment, restores
replicas, clears the markers and persists: the result spelled out. -/
theorem start_eq_of (s : Unidling) (c : Cluster) (ing : Ingress) (d d1 : Deployment)
    (hns : s.started = false)
    (hing : ingress_for_host s.hostname c.ingresses = .ok ing)
    (hd : deployment_for_ingress c ing = some d)
    (hr : restore_replicas d = .ok d1) :
    s.start c =
      { events := [.listIngresses, .readDeployment ing.name ing.ns,
                   .replaceDeployment (unmark_idled d1).name (unmark_idled d1).ns
                     (unmark_idled d1)],
        sess := { s with started := true, ingress := some ing,
                         deployment := some (unmark_idled d1) },
        cluster := write_deployment_changes c (unmark_idled d1),
        err := none } := by
  unfold Unidling.start
  rw [hns]
  simp only [Bool.false_eq_true, if_false, hing, hd, hr]

/-- If `start` on a not-yet-started session raised no exception, all three
resolution steps succeeded. -/
theorem start_ok_inv (s : Unidling) (c : Cluster) (hns : s.started = false)
    (hok : (s.start c).err = none) :
    ∃ ing d d1, ingress_for_host s.hostname c.ingresses = .ok ing ∧
      deployment_for_ingress c ing = some d ∧ restore_replicas d = .ok d1 := by
  cases hing : ingress_for_host s.hostname c.ingresses with
  | error e =>
    exfalso
    have herr : (s.start c).err = some e := by
      unfold Unidling.start
      rw [hns]
      simp only [Bool.false_eq_true, if_false, hing]
    rw [herr] at hok
    exact Option.noConfusion hok
  | ok ing =>
    cases hd : deployment_for_ingress c ing with
    | none =>
      exfalso
      have herr : (s.start c).err = some (.deploymentNotFound ing.name ing.ns) := by
        unfold Unidling.start
        rw [hns]
        simp only [Bool.false_eq_true, if_false, hing, hd]
      rw [herr] at hok
      exact Option.noConfusion hok
    | some d =>
      cases hr : restore_replicas d with
      | error e =>
        exfalso
        have herr : (s.start c).err = some e := by
          unfold Unidling.start
          rw [hns]
          simp only [Bool.false_eq_true, if_false, hing, hd, hr]
        rw [herr] at hok
        exact Option.noConfusion hok
      | ok d1 => exact ⟨ing, d, d1, by simp [hing], hd, hr⟩

/-- **C3**: starting a not-yet-started session issues exactly one mutating write
to the Workload, and calling `start()` again on the resulting session is a
silent no-op: no API calls, no session change, no cluster change. -/
theorem start_twice_single_write (s : Unidling) (c : Cluster)
    (hns : s.started = false) (hok : (s.start c).err = none) :
    (s.start c).events.countP isWorkloadWrite = 1 ∧
    (s.start c).sess.start (s.start c).cluster =
      { events := [], sess := (s.start c).sess, cluster := (s.start c).cluster,
        err := none } := by
  obtain ⟨ing, d, d1, hing, hd, hr⟩ := start_ok_inv s c hns hok
  rw [start_eq_of s c ing d d1 hns hing hd hr]
  exact ⟨by simp [List.countP, List.countP.go, isWorkloadWrite], rfl⟩

/-- Witness for C3: concrete idled cluster; the first `start` writes once and
the repeat call does nothing. -/
theorem start_twice_single_write_witness :
    ((Unidling.init hostW).start clusterIdledW).events.countP isWorkloadWrite = 1 ∧
    ((Unidling.init hostW).start clusterIdledW).sess.start
        ((Unidling.init hostW).start clusterIdledW).cluster =
      { events := [], sess := ((Unidling.init hostW).start clusterIdledW).sess,
        cluster := ((Unidling.init hostW).start clusterIdledW).cluster,
        err := none } :=
  start_twice_single_write (Unidling.init hostW) clusterIdledW rfl (by decide)

/-! ## C7 — saved-state annotation round-trip -/

/-- **C7**: for every replica count `n` and timestamp without a comma, a
deployment whose saved-state annotation is the formatted `"<timestamp>,<replicas>"`
string has exactly `n` restored into `spec.replicas` by `restore_replicas`. -/
theorem saved_state_roundtrip (d : Deployment) (ts : String) (n : Nat)
    (hts : ',' ∉ ts.data)
    (hann : getKV d.anns IDLED_AT = some (formatIdledAt ts n)) :
    restore_replicas d = .ok { d with specReplicas := some (n : Int) } := by
  have hsplit : pySplitComma (formatIdledAt ts n) = [ts, String.mk (natChars n)] := by
    unfold pySplitComma formatIdledAt
    rw [show (String.mk (ts.data ++ ',' :: natChars n)).data
          = ts.data ++ ',' :: natChars n from rfl]
    rw [splitCommaL_append _ _ hts, splitCommaL_no_comma _ (comma_not_mem_natChars n)]
    rfl
  unfold restore_replicas
  rw [hann]
  simp only [hsplit, pyInt?_natChars n]
  simp

/-- A concrete timestamp for the round-trip witness. -/
def tsW : String := "2019-01-01T00:00:00+00:00"

/-- A deployment carrying the formatted saved-state annotation for 2 replicas. -/
def dRoundW : Deployment :=
  ⟨"myapp", "apps", [(IDLED, "true")], [(IDLED_AT, formatIdledAt tsW 2)], some 0, some 0⟩

/-- Witness for C7 at `n = 2`. -/
theorem saved_state_roundtrip_witness :
    restore_replicas dRoundW = .ok { dRoundW with specReplicas := some (2 : Int) } :=
  saved_state_roundtrip dRoundW tsW 2 (by decide) (by simp [dRoundW, getKV])

/-! ## C10 — any hostname beginning with `'unidler'` is answered 204 untouched -/

/-- **C10**: every request whose resolved hostname merely begins with the prefix
`'unidler'` — not only the controller's exact own identity, including unrelated
hostnames such as `"unidler.example.com"` — is answered 204 No Content with the
registry untouched (no session lookup or creation) and no cluster API call. -/
theorem unidler_prefixed_host_no_content
    (headers : List (String × String)) (reg : Registry) (c : Cluster)
    (h : pyStartsWith (resolvedHostname headers) UNIDLER = true) :
    RequestHandler.do_GET headers reg c =
      { response := .noContent, registry := reg, cluster := c, events := [] } := by
  unfold RequestHandler.do_GET
  simp [h]

/-- Witness for C10: `Host: unidler.example.com` on a non-empty registry and a
cluster in which that hostname would otherwise need work. -/
theorem unidler_prefixed_host_no_content_witness :
    RequestHandler.do_GET [("Host", "unidler.example.com")]
        [(hostW, sessStartedW)] clusterIdledW =
      { response := .noContent, registry := [(hostW, sessStartedW)],
        cluster := clusterIdledW, events := [] } :=
  unidler_prefixed_host_no_content [("Host", "unidler.example.com")]
    [(hostW, sessStartedW)] clusterIdledW (by decide)

/-! ## C4 — route lookup looks only at the first rule of each Route -/

/-- A Route whose SECOND rule matches the wanted hostname. -/
def iSecondRuleW : Ingress :=
  ⟨"app", "ns", [⟨"first.example.com", "b1"⟩, ⟨"second.example.com", "b2"⟩], []⟩

/-- A Route named `unidler` in a namespace other than the Holding Route's. -/
def uOtherNsW : Ingress := ⟨"unidler", "other-ns", [⟨"third.example.com", "b3"⟩], []⟩

/-- Counterexample to C4 as stated: a Route outside the Holding Route carrying a
host rule for the hostname (in second position) is NOT returned — lookup fails —
and a Route named `unidler` in a different namespace (so not the Holding Route)
is skipped even though its first rule matches. -/
theorem ingress_for_host_misses_matching_rule :
    (ingress_for_host "second.example.com" [iSecondRuleW]
        = .error (.ingressNotFound "second.example.com") ∧
      iSecondRuleW.name ≠ UNIDLER ∧
      ∃ r ∈ iSecondRuleW.rules, r.host = "second.example.com") ∧
    (ingress_for_host "third.example.com" [uOtherNsW]
        = .error (.ingressNotFound "third.example.com") ∧
      (uOtherNsW.name, uOtherNsW.ns) ≠ (UNIDLER, UNIDLER_NAMESPACE) ∧
      ∃ r ∈ uOtherNsW.rules, r.host = "third.example.com") :=
  ⟨⟨rfl, by decide, by decide⟩, ⟨rfl, by decide, by decide⟩⟩

/-- The scan passes over Route `j` without returning it and without raising:
either `j` carries the holding-route name, or its first rule exists and does not
match the hostname. -/
abbrev passedOver (hostname : String) (j : Ingress) : Prop :=
  j.name = UNIDLER ∨ ∃ r, j.rules.head? = some r ∧ r.host ≠ hostname

/-- Scan step: a `unidler`-named Route is skipped before its rules are read. -/
theorem ifh_skip (hostname : String) (a : Ingress) (rest : List Ingress)
    (h : a.name = UNIDLER) :
    ingress_for_host hostname (a :: rest) = ingress_for_host hostname rest := by
  simp [ingress_for_host, h]

/-- Scan step: `rules[0]` on a rule-less non-`unidler` Route raises IndexError. -/
theorem ifh_raise (hostname : String) (a : Ingress) (rest : List Ingress)
    (h1 : ¬ a.name = UNIDLER) (h2 : a.rules.head? = none) :
    ingress_for_host hostname (a :: rest) = .error .indexError := by
  simp [ingress_for_host, h1, h2]

/-- Scan step: a matching first rule returns this Route. -/
theorem ifh_hit (hostname : String) (a : Ingress) (rest : List Ingress) (r : Rule)
    (h1 : ¬ a.name = UNIDLER) (h2 : a.rules.head? = some r)
    (h3 : r.host = hostname) :
    ingress_for_host hostname (a :: rest) = .ok a := by
  simp [ingress_for_host, h1, h2, h3]

/-- Scan step: a non-matching first rule moves the scan on. -/
theorem ifh_pass (hostname : String) (a : Ingress) (rest : List Ingress) (r : Rule)
    (h1 : ¬ a.name = UNIDLER) (h2 : a.rules.head? = some r)
    (h3 : ¬ r.host = hostname) :
    ingress_for_host hostname (a :: rest) = ingress_for_host hostname rest := by
  simp [ingress_for_host, h1, h2, h3]

/-- A returned Route is a non-`unidler` Route whose first rule matches, and it is
the first such Route: everything before it was passed over. -/
theorem ingress_for_host_ok_spec (hostname : String) (ings : List Ingress)
    (i : Ingress) (h : ingress_for_host hostname ings = .ok i) :
    i.name ≠ UNIDLER ∧ (∃ r, i.rules.head? = some r ∧ r.host = hostname) ∧
    ∃ pre post, ings = pre ++ i :: post ∧ ∀ j ∈ pre, passedOver hostname j := by
  induction ings with
  | nil => simp [ingress_for_host] at h
  | cons a rest ih =>
    by_cases ha : a.name = UNIDLER
    · rw [ifh_skip hostname a rest ha] at h
      obtain ⟨h1, h2, pre, post, heq, hpre⟩ := ih h
      refine ⟨h1, h2, a :: pre, post, by simp [heq], ?_⟩
      intro j hj
      rcases List.mem_cons.mp hj with rfl | hj'
      · exact Or.inl ha
      · exact hpre j hj'
    · cases hh : a.rules.head? with
      | none =>
        rw [ifh_raise hostname a rest ha hh] at h
        exact absurd h (by simp)
      | some r =>
        by_cases hr : r.host = hostname
        · rw [ifh_hit hostname a rest r ha hh hr] at h
          have hai : a = i := by simpa using h
          subst hai
          exact ⟨ha, ⟨r, hh, hr⟩, [], rest, rfl, by simp⟩
        · rw [ifh_pass hostname a rest r ha hh hr] at h
          obtain ⟨h1, h2, pre, post, heq, hpre⟩ := ih h
          refine ⟨h1, h2, a :: pre, post, by simp [heq], ?_⟩
          intro j hj
          rcases List.mem_cons.mp hj with rfl | hj'
          · exact Or.inr ⟨r, hh, hr⟩
          · exact hpre j hj'

/-- The lookup raises `IngressNotFound` exactly when every Route in the list is
passed over (skipped by name, or first rule present but non-matching). -/
theorem ingress_for_host_notfound_iff (hostname : String) (ings : List Ingress) :
    ingress_for_host hostname ings = .error (.ingressNotFound hostname) ↔
      ∀ j ∈ ings, passedOver hostname j := by
  induction ings with
  | nil => simp [ingress_for_host]
  | cons a rest ih =>
    by_cases ha : a.name = UNIDLER
    · rw [ifh_skip hostname a rest ha, ih]
      constructor
      · intro hall j hj
        rcases List.mem_cons.mp hj with rfl | hj'
        · exact Or.inl ha
        · exact hall j hj'
      · intro hall j hj
        exact hall j (List.mem_cons_of_mem a hj)
    · cases hh : a.rules.head? with
      | none =>
        rw [ifh_raise hostname a rest ha hh]
        constructor
        · intro hcontra
          exact absurd hcontra (by simp)
        · intro hall
          exfalso
          rcases hall a (List.mem_cons_self a rest) with h1 | ⟨r, hr, _⟩
          · exact ha h1
          · rw [hh] at hr
            exact Option.noConfusion hr
      | some r =>
        by_cases hr : r.host = hostname
        · rw [ifh_hit hostname a rest r ha hh hr]
          constructor
          · intro hcontra
            exact absurd hcontra (by simp)
          · intro hall
            exfalso
            rcases hall a (List.mem_cons_self a rest) with h1 | ⟨r', hr', hne⟩
            · exact ha h1
            · rw [hh] at hr'
              have heq2 : r = r' := by simpa using hr'
              subst heq2
              exact hne hr
        · rw [ifh_pass hostname a rest r ha hh hr, ih]
          constructor
          · intro hall j hj
            rcases List.mem_cons.mp hj with rfl | hj'
            · exact Or.inr ⟨r, hh, hr⟩
            · exact hall j hj'
          · intro hall j hj
            exact hall j (List.mem_cons_of_mem a hj)

/-- The lookup raises `IndexError` exactly when the first not-passed-over Route
is a rule-less non-`unidler` Route. -/
theorem ingress_for_host_index_iff (hostname : String) (ings : List Ingress) :
    ingress_for_host hostname ings = .error .indexError ↔
      ∃ pre j post, ings = pre ++ j :: post ∧ j.name ≠ UNIDLER ∧
        j.rules.head? = none ∧ ∀ j' ∈ pre, passedOver hostname j' := by
  induction ings with
  | nil =>
    constructor
    · intro hcontra
      simp [ingress_for_host] at hcontra
    · rintro ⟨pre, j, post, heq, -, -, -⟩
      cases pre <;> simp at heq
  | cons a rest ih =>
    by_cases ha : a.name = UNIDLER
    · rw [ifh_skip hostname a rest ha, ih]
      constructor
      · rintro ⟨pre, j, post, heq, hj1, hj2, hpre⟩
        refine ⟨a :: pre, j, post, by simp [heq], hj1, hj2, ?_⟩
        intro j' hj'
        rcases List.mem_cons.mp hj' with rfl | hm
        · exact Or.inl ha
        · exact hpre j' hm
      · rintro ⟨pre, j, post, heq, hj1, hj2, hpre⟩
        cases pre with
        | nil =>
          simp only [List.nil_append, List.cons.injEq] at heq
          obtain ⟨rfl, rfl⟩ := heq
          exact absurd ha hj1
        | cons p pre' =>
          simp only [List.cons_append, List.cons.injEq] at heq
          obtain ⟨rfl, hrest⟩ := heq
          exact ⟨pre', j, post, hrest, hj1, hj2,
            fun j' hm => hpre j' (List.mem_cons_of_mem _ hm)⟩
    · cases hh : a.rules.head? with
      | none =>
        rw [ifh_raise hostname a rest ha hh]
        constructor
        · intro _
          exact ⟨[], a, rest, rfl, ha, hh, by simp⟩
        · intro _
          rfl
      | some r =>
        by_cases hr : r.host = hostname
        · rw [ifh_hit hostname a rest r ha hh hr]
          constructor
          · intro hcontra
            exact absurd hcontra (by simp)
          · rintro ⟨pre, j, post, heq, hj1, hj2, hpre⟩
            exfalso
            cases pre with
            | nil =>
              simp only [List.nil_append, List.cons.injEq] at heq
              obtain ⟨rfl, rfl⟩ := heq
              rw [hh] at hj2
              exact Option.noConfusion hj2
            | cons p pre' =>
              simp only [List.cons_append, List.cons.injEq] at heq
              obtain ⟨rfl, hrest⟩ := heq
              rcases hpre a (List.mem_cons_self a pre') with h1 | ⟨r', hr', hne⟩
              · exact ha h1
              · rw [hh] at hr'
                have heq2 : r = r' := by simpa using hr'
                subst heq2
                exact hne hr
        · rw [ifh_pass hostname a rest r ha hh hr, ih]
          constructor
          · rintro ⟨pre, j, post, heq, hj1, hj2, hpre⟩
            refine ⟨a :: pre, j, post, by simp [heq], hj1, hj2, ?_⟩
            intro j' hj'
            rcases List.mem_cons.mp hj' with rfl | hm
            · exact Or.inr ⟨r, hh, hr⟩
            · exact hpre j' hm
          · rintro ⟨pre, j, post, heq, hj1, hj2, hpre⟩
            cases pre with
            | nil =>
              simp only [List.nil_append, List.cons.injEq] at heq
              obtain ⟨rfl, rfl⟩ := heq
              rw [hh] at hj2
              exact Option.noConfusion hj2
            | cons p pre' =>
              simp only [List.cons_append, List.cons.injEq] at heq
              obtain ⟨rfl, hrest⟩ := heq
              exact ⟨pre', j, post, hrest, hj1, hj2,
                fun j' hm => hpre j' (List.mem_cons_of_mem _ hm)⟩

/-- **C4 (amended)**: route lookup scans in enumeration order, skipping every
Route named `unidler` (in any namespace) before its rules are read; on every
other Route only the FIRST host rule is examined, not any rule in the sequence:
a Route with no rules makes the scan raise an uncaught IndexError (surfacing as
a 500, not `RouteNotFound`); a first-rule match returns that Route, the first
such Route in enumeration order winning; and the lookup fails with
`RouteNotFound` exactly when it passes over every Route (skipped by name, or
first rule present but non-matching). -/
theorem ingress_for_host_first_rule_only (hostname : String) (ings : List Ingress) :
    (∀ i, ingress_for_host hostname ings = .ok i →
      i.name ≠ UNIDLER ∧ (∃ r, i.rules.head? = some r ∧ r.host = hostname) ∧
      ∃ pre post, ings = pre ++ i :: post ∧ ∀ j ∈ pre, passedOver hostname j) ∧
    (ingress_for_host hostname ings = .error (.ingressNotFound hostname) ↔
      ∀ j ∈ ings, passedOver hostname j) ∧
    (ingress_for_host hostname ings = .error .indexError ↔
      ∃ pre j post, ings = pre ++ j :: post ∧ j.name ≠ UNIDLER ∧
        j.rules.head? = none ∧ ∀ j' ∈ pre, passedOver hostname j') :=
  ⟨fun i h => ingress_for_host_ok_spec hostname ings i h,
   ingress_for_host_notfound_iff hostname ings,
   ingress_for_host_index_iff hostname ings⟩

/-! ## C5 — the registry's get-or-create is not atomic -/

/-- Counterexample to C5 as stated: the schedule A-check, B-check, A-insert,
B-insert — two concurrent requests for the same absent hostname — constructs TWO
`Unidling` session objects for that one hostname (the second insert overwrites
the first in the dict). -/
theorem registry_interleaving_two_constructions :
    (regRun [true, false, true, false] regInit).constructed = 2 := by decide

/-- State after thread A has run only its membership check (hostname absent). -/
def regAfterA1 : RegState :=
  { present := false, constructed := 0, pcA := .insert, pcB := .check }

/-- State after thread A has fully finished its get-or-create. -/
def regAfterA2 : RegState :=
  { present := true, constructed := 1, pcA := .finished, pcB := .check }

/-- A thread whose registry fragment has finished changes nothing more (A side). -/
theorem regRun_rep_A_fin (k : Nat) (s : RegState) (h : s.pcA = .finished) :
    regRun (List.replicate k true) s = s := by
  induction k with
  | zero => rfl
  | succ k' ih =>
    rw [List.replicate_succ]
    have hstep : regStep s true = s := by
      cases s
      simp_all [regStep, regStepPC]
    show regRun (true :: List.replicate k' true) s = s
    unfold regRun
    rw [List.foldl_cons, hstep]
    exact ih

/-- A thread whose registry fragment has finished changes nothing more (B side). -/
theorem regRun_rep_B_fin (k : Nat) (s : RegState) (h : s.pcB = .finished) :
    regRun (List.replicate k false) s = s := by
  induction k with
  | zero => rfl
  | succ k' ih =>
    rw [List.replicate_succ]
    have hstep : regStep s false = s := by
      cases s
      simp_all [regStep, regStepPC]
    show regRun (false :: List.replicate k' false) s = s
    unfold regRun
    rw [List.foldl_cons, hstep]
    exact ih

/-- If the hostname is already present when thread B reaches its check, B
constructs nothing. -/
theorem regRun_B_present (k : Nat) (s : RegState) (hB : s.pcB = .check)
    (hp : s.present = true) :
    (regRun (List.replicate k false) s).constructed = s.constructed := by
  cases k with
  | zero => rfl
  | succ k' =>
    rw [List.replicate_succ]
    have hstep : regStep s false = { s with pcB := .finished } := by
      cases s
      simp_all [regStep, regStepPC]
    show (regRun (false :: List.replicate k' false) s).constructed = s.constructed
    unfold regRun
    rw [List.foldl_cons, hstep]
    rw [show List.foldl regStep { s with pcB := RegPC.finished } (List.replicate k' false)
          = regRun (List.replicate k' false) { s with pcB := RegPC.finished } from rfl]
    rw [regRun_rep_B_fin k' _ rfl]

/-- Running thread B's whole fragment alone constructs at most one session. -/
theorem regRun_B_alone (k : Nat) (s : RegState) (hB : s.pcB = .check) :
    (regRun (List.replicate k false) s).constructed ≤ s.constructed + 1 := by
  by_cases hp : s.present = true
  · rw [regRun_B_present k s hB hp]
    omega
  · cases k with
    | zero => simp [regRun]
    | succ k' =>
      rw [List.replicate_succ]
      have hp' : s.present = false := by
        cases hpv : s.present
        · rfl
        · exact absurd hpv hp
      have hstep : regStep s false = { s with pcB := .insert } := by
        cases s
        simp_all [regStep, regStepPC]
      show (regRun (false :: List.replicate k' false) s).constructed ≤ s.constructed + 1
      unfold regRun
      rw [List.foldl_cons, hstep]
      cases k' with
      | zero => simp
      | succ k'' =>
        rw [List.replicate_succ, List.foldl_cons]
        have hstep2 : regStep { s with pcB := RegPC.insert } false =
            { s with present := true, constructed := s.constructed + 1,
                     pcB := .finished } := by
          cases s
          simp [regStep, regStepPC]
        rw [hstep2]
        rw [show List.foldl regStep
              { s with present := true, constructed := s.constructed + 1,
                       pcB := RegPC.finished } (List.replicate k'' false)
            = regRun (List.replicate k'' false)
              { s with present := true, constructed := s.constructed + 1,
                       pcB := RegPC.finished } from rfl]
        rw [regRun_rep_B_fin k'' _ rfl]

/-- **C5 (amended)**: when the two requests do NOT interleave — one thread's whole
get-or-create runs before the other thread starts — at most one session object is
constructed for the hostname.  (Atomicity fails only under interleaving, as the
counterexample schedule shows.) -/
theorem registry_sequential_at_most_one (m k : Nat) :
    (regRun (List.replicate m true ++ List.replicate k false) regInit).constructed ≤ 1 := by
  have happ : regRun (List.replicate m true ++ List.replicate k false) regInit
      = regRun (List.replicate k false) (regRun (List.replicate m true) regInit) := by
    unfold regRun
    rw [List.foldl_append]
  rw [happ]
  match m with
  | 0 =>
    rw [show regRun (List.replicate 0 true) regInit = regInit from rfl]
    have h := regRun_B_alone k regInit rfl
    simpa [regInit] using h
  | 1 =>
    rw [show regRun (List.replicate 1 true) regInit = regAfterA1 from rfl]
    have h := regRun_B_alone k regAfterA1 rfl
    simpa [regAfterA1] using h
  | (m' + 2) =>
    have h2 : regRun (List.replicate (m' + 2) true) regInit
        = regRun (List.replicate m' true) regAfterA2 := by
      rw [List.replicate_succ, List.replicate_succ]
      rfl
    rw [h2, regRun_rep_A_fin m' regAfterA2 rfl]
    have h := regRun_B_present k regAfterA2 rfl rfl
    exact le_of_eq h

/-! ## C6 — missing saved-state annotation: skip restoration, still clear and persist -/

/-- **C6**: when the Workload's saved-state annotation is absent, `start()`'s
replica restoration logs and skips setting `spec.replicas` — no default is
substituted — while the Idled marker label is still cleared and the Workload
still persisted; when the annotation is present in the
`"<timestamp>,<replicas>"` format, `spec.replicas` is set to the parsed count. -/
theorem start_skip_or_restore (s : Unidling) (c : Cluster) (ing : Ingress)
    (d : Deployment) (hns : s.started = false)
    (hing : ingress_for_host s.hostname c.ingresses = .ok ing)
    (hd : deployment_for_ingress c ing = some d) :
    (getKV d.anns IDLED_AT = none →
      s.start c =
        { events := [.listIngresses, .readDeployment ing.name ing.ns,
                     .replaceDeployment (unmark_idled d).name (unmark_idled d).ns
                       (unmark_idled d)],
          sess := { s with started := true, ingress := some ing,
                           deployment := some (unmark_idled d) },
          cluster := write_deployment_changes c (unmark_idled d),
          err := none } ∧
      (unmark_idled d).specReplicas = d.specReplicas ∧
      getKV (unmark_idled d).labels IDLED = none) ∧
    (∀ ann ts reps k, getKV d.anns IDLED_AT = some ann →
      pySplitComma ann = [ts, reps] → pyInt? reps = some k →
      s.start c =
        { events := [.listIngresses, .readDeployment ing.name ing.ns,
                     .replaceDeployment
                       (unmark_idled { d with specReplicas := some k }).name
                       (unmark_idled { d with specReplicas := some k }).ns
                       (unmark_idled { d with specReplicas := some k })],
          sess := { s with started := true, ingress := some ing,
                           deployment :=
                             some (unmark_idled { d with specReplicas := some k }) },
          cluster := write_deployment_changes c
            (unmark_idled { d with specReplicas := some k }),
          err := none } ∧
      (unmark_idled { d with specReplicas := some k }).specReplicas = some k ∧
      getKV (unmark_idled { d with specReplicas := some k }).labels IDLED = none) := by
  constructor
  · intro hann
    have hr : restore_replicas d = .ok d := by
      unfold restore_replicas
      rw [hann]
    exact ⟨start_eq_of s c ing d d hns hing hd hr, rfl,
           getKV_delKV_self d.labels IDLED⟩
  · intro ann ts reps k hann hsp hpi
    have hr : restore_replicas d = .ok { d with specReplicas := some k } := by
      unfold restore_replicas
      rw [hann]
      simp only [hsp, hpi]
    exact ⟨start_eq_of s c ing d { d with specReplicas := some k } hns hing hd hr, rfl,
           getKV_delKV_self d.labels IDLED⟩

/-- Witness for C6, both branches: the annotation-less workload is persisted with
its `spec.replicas` untouched and its label cleared; the annotated one gets 2. -/
theorem start_skip_or_restore_witness :
    ((Unidling.init hostW).start clusterNoAnnW =
        { events := [.listIngresses, .readDeployment ingW.name ingW.ns,
                     .replaceDeployment (unmark_idled depNoAnnW).name
                       (unmark_idled depNoAnnW).ns (unmark_idled depNoAnnW)],
          sess := { Unidling.init hostW with
                      started := true, ingress := some ingW,
                      deployment := some (unmark_idled depNoAnnW) },
          cluster := write_deployment_changes clusterNoAnnW (unmark_idled depNoAnnW),
          err := none } ∧
      (unmark_idled depNoAnnW).specReplicas = depNoAnnW.specReplicas ∧
      getKV (unmark_idled depNoAnnW).labels IDLED = none) ∧
    ((Unidling.init hostW).start clusterIdledW =
        { events := [.listIngresses, .readDeployment ingW.name ingW.ns,
                     .replaceDeployment
                       (unmark_idled { depIdledW with specReplicas := some 2 }).name
                       (unmark_idled { depIdledW with specReplicas := some 2 }).ns
                       (unmark_idled { depIdledW with specReplicas := some 2 })],
          sess := { Unidling.init hostW with
                      started := true, ingress := some ingW,
                      deployment :=
                        some (unmark_idled { depIdledW with specReplicas := some 2 }) },
          cluster := write_deployment_changes clusterIdledW
            (unmark_idled { depIdledW with specReplicas := some 2 }),
          err := none } ∧
      (unmark_idled { depIdledW with specReplicas := some 2 }).specReplicas = some 2 ∧
      getKV (unmark_idled { depIdledW with specReplicas := some 2 }).labels IDLED
        = none) :=
  ⟨(start_skip_or_restore (Unidling.init hostW) clusterNoAnnW ingW depNoAnnW
      rfl rfl (by decide)).1 (by decide),
   (start_skip_or_restore (Unidling.init hostW) clusterIdledW ingW depIdledW
      rfl rfl (by decide)).2 "2019-01-01T00:00:00,2" "2019-01-01T00:00:00" "2" 2
      (by decide) (by decide) (by decide)⟩

/-! ## C8 — exact removal from the Holding Route; annotation-only flip -/

/-- On the success path, `Unidling.enable_ingress` issues exactly the two Route
patches in order: the holding route with this hostname's rules removed, then the
cached route handle with its class annotation set. -/
theorem enable_ingress_eq_of (s : Unidling) (c : Cluster) (u cached fresh : Ingress)
    (hen : s.enabled = false)
    (hu : unidler_ingress c = some u)
    (hcached : s.ingress = some cached)
    (hfresh : ingress_for_host s.hostname
      (write_ingress_changes c (remove_host_rule s.hostname u)).ingresses = .ok fresh) :
    s.enable_ingress c =
      { events := [.readUnidlerIngress,
                   .patchIngress (remove_host_rule s.hostname u).name
                     (remove_host_rule s.hostname u).ns (remove_host_rule s.hostname u),
                   .listIngresses,
                   .patchIngress (enableIngressAnn cached).name (enableIngressAnn cached).ns
                     (enableIngressAnn cached)],
        sess := { s with enabled := true, ingress := some (enableIngressAnn cached) },
        cluster := write_ingress_changes
          (write_ingress_changes c (remove_host_rule s.hostname u))
          (enableIngressAnn cached),
        err := none } := by
  unfold Unidling.enable_ingress
  rw [hen]
  simp only [Bool.false_eq_true, if_false, hu, hfresh, hcached]
  rfl

/-- **C8**: the cutover's first Route mutation removes exactly the host rule(s)
whose host equals the session's hostname from the Holding Route — every other
rule survives, in order, with multiplicity — and changes nothing else on it;
the second mutation flips only the activation annotation on the target Route it
persists, leaving that Route's host rules (and name and namespace) unchanged. -/
theorem cutover_exact_removal_and_annotation_only
    (s : Unidling) (c : Cluster) (u cached fresh : Ingress)
    (hen : s.enabled = false)
    (hu : unidler_ingress c = some u)
    (hcached : s.ingress = some cached)
    (hfresh : ingress_for_host s.hostname
      (write_ingress_changes c (remove_host_rule s.hostname u)).ingresses = .ok fresh) :
    ∃ u1 t, s.enable_ingress c =
      { events := [.readUnidlerIngress, .patchIngress u1.name u1.ns u1,
                   .listIngresses, .patchIngress t.name t.ns t],
        sess := { s with enabled := true, ingress := some t },
        cluster := write_ingress_changes (write_ingress_changes c u1) t,
        err := none } ∧
      (∀ r ∈ u1.rules, r.host ≠ s.hostname) ∧
      u1.rules.Sublist u.rules ∧
      (∀ r ∈ u.rules, r.host ≠ s.hostname → r ∈ u1.rules) ∧
      (∀ r : Rule, r.host ≠ s.hostname → u1.rules.count r = u.rules.count r) ∧
      u1.name = u.name ∧ u1.ns = u.ns ∧ u1.anns = u.anns ∧
      t.rules = cached.rules ∧ t.name = cached.name ∧ t.ns = cached.ns ∧
      getKV t.anns INGRESS_CLASS = some INGRESS_CLASS_NAME ∧
      (∀ key, key ≠ INGRESS_CLASS → getKV t.anns key = getKV cached.anns key) := by
  refine ⟨remove_host_rule s.hostname u, enableIngressAnn cached,
    enable_ingress_eq_of s c u cached fresh hen hu hcached hfresh, ?_, ?_, ?_, ?_,
    rfl, rfl, rfl, rfl, rfl, rfl, ?_, ?_⟩
  · intro r hr
    simp only [remove_host_rule, List.mem_filter, decide_eq_true_eq] at hr
    exact hr.2
  · exact List.filter_sublist u.rules
  · intro r hr hne
    simp only [remove_host_rule, List.mem_filter, decide_eq_true_eq]
    exact ⟨hr, hne⟩
  · intro r hne
    simp only [remove_host_rule]
    exact List.count_filter (by simpa using hne)
  · exact getKV_setKV_self cached.anns INGRESS_CLASS INGRESS_CLASS_NAME
  · intro key hkey
    exact getKV_setKV_other cached.anns INGRESS_CLASS key INGRESS_CLASS_NAME hkey

/-- Witness for C8: the concrete started session for `hostW`, whose Holding Route
carries rules for `hostW` and for `other.example.com`. -/
theorem cutover_exact_removal_witness :
    ∃ u1 t, sessStartedW.enable_ingress clusterIdledW =
      { events := [.readUnidlerIngress, .patchIngress u1.name u1.ns u1,
                   .listIngresses, .patchIngress t.name t.ns t],
        sess := { sessStartedW with enabled := true, ingress := some t },
        cluster := write_ingress_changes (write_ingress_changes clusterIdledW u1) t,
        err := none } ∧
      (∀ r ∈ u1.rules, r.host ≠ sessStartedW.hostname) ∧
      u1.rules.Sublist uingW.rules ∧
      (∀ r ∈ uingW.rules, r.host ≠ sessStartedW.hostname → r ∈ u1.rules) ∧
      (∀ r : Rule, r.host ≠ sessStartedW.hostname → u1.rules.count r = uingW.rules.count r) ∧
      u1.name = uingW.name ∧ u1.ns = uingW.ns ∧ u1.anns = uingW.anns ∧
      t.rules = ingW.rules ∧ t.name = ingW.name ∧ t.ns = ingW.ns ∧
      getKV t.anns INGRESS_CLASS = some INGRESS_CLASS_NAME ∧
      (∀ key, key ≠ INGRESS_CLASS → getKV t.anns key = getKV ingW.anns key) :=
  cutover_exact_removal_and_annotation_only sessStartedW clusterIdledW uingW ingW ingW
    rfl (by decide) rfl rfl

/-! ## C1 — the cutover flips the cached Route handle, not the fresh one -/

/-- The session's cached Route handle for `hostW`, as it looked at `start()` time. -/
def cachedIngW : Ingress :=
  ⟨"myapp", "apps", [⟨hostW, "old-backend"⟩], [(INGRESS_CLASS, "disabled")]⟩

/-- The Route for `hostW` as it currently exists in the cluster, mutated since
the session cached its handle (a different backend). -/
def freshIngW : Ingress :=
  ⟨"myapp", "apps", [⟨hostW, "new-backend"⟩], [(INGRESS_CLASS, "disabled")]⟩

/-- Cluster at cutover time: the Holding Route and the mutated Route. -/
def clusterFlipW : Cluster := ⟨[uingW, freshIngW], []⟩

/-- Started session still holding the stale cached handle. -/
def sessFlipW : Unidling :=
  { Unidling.init hostW with started := true, ingress := some cachedIngW }

/-- **C1** (evaluation at the failing input): the cutover issues its two Route
mutations in the stated order — Holding Route first, hostname flip second — and
line 151 does re-resolve the Route fresh (here `freshIngW`); but the Route whose
activation annotation is flipped and persisted by the second mutation is the
CACHED handle `cachedIngW`, not the freshly resolved one, and the two flipped
objects differ. -/
theorem enable_ingress_flips_cached_not_fresh :
    (sessFlipW.enable_ingress clusterFlipW).err = none ∧
    (sessFlipW.enable_ingress clusterFlipW).events =
      [.readUnidlerIngress,
       .patchIngress UNIDLER UNIDLER_NAMESPACE (remove_host_rule hostW uingW),
       .listIngresses,
       .patchIngress "myapp" "apps" (enableIngressAnn cachedIngW)] ∧
    ingress_for_host hostW
        (write_ingress_changes clusterFlipW (remove_host_rule hostW uingW)).ingresses
      = .ok freshIngW ∧
    enableIngressAnn cachedIngW ≠ enableIngressAnn freshIngW :=
  ⟨by decide, by decide, rfl, by decide⟩

/-! ## C9 — the hostname is read from the Host header only -/

/-- **C9** (evaluation at the failing input): a request carrying the
originally-intended hostname only in the `X-Forwarded-Host` header — exactly
what the repository's own tests send — is answered 204 No Content with no
session ever created and no cluster call, because the handler reads only the
literal `Host` header (defaulting to `'unidler'`); the spec's extraction
(`specResolvedHostname`) would have resolved `hostW`, whose workload here is
idle and awaiting a `start()`. -/
theorem do_GET_ignores_forwarded_host :
    resolvedHostname [("X-Forwarded-Host", hostW)] = UNIDLER ∧
    specResolvedHostname [("X-Forwarded-Host", hostW)] = hostW ∧
    (is_idle hostW clusterIdledW).2 = .ok true ∧
    RequestHandler.do_GET [("X-Forwarded-Host", hostW)] [] clusterIdledW =
      { response := .noContent, registry := [], cluster := clusterIdledW,
        events := [] } :=
  ⟨by decide, by decide, rfl, by decide⟩

/-- Witness for the amended C4: on a concrete list the lookup skips the
`unidler`-named Route and returns the Route whose first rule matches, with the
skipped Route recorded as passed over. -/
theorem ingress_for_host_first_rule_only_witness :
    iSecondRuleW.name ≠ UNIDLER ∧
    (∃ r, iSecondRuleW.rules.head? = some r ∧ r.host = "first.example.com") ∧
    ∃ pre post, [uOtherNsW, iSecondRuleW] = pre ++ iSecondRuleW :: post ∧
      ∀ j ∈ pre, passedOver "first.example.com" j :=
  (ingress_for_host_first_rule_only "first.example.com"
    [uOtherNsW, iSecondRuleW]).1 iSecondRuleW rfl
